import Mathlib

/-!
Verification of the task-runner core of `Kill.py` (class `DorkParser`).

The embedding models the shared statistics dictionary (`__init__`, lines
32-40), the retry loop `process_dork` (lines 286-354), the live reporter
computation `display_stats` (lines 356-386) and the dispatch sequence of
`run` (lines 388-450).

Shared-state mutations are modelled as an explicit trace of atomic events,
each tagged with whether the source performs it inside a `with self.lock`
block; applying a trace to a `Stats` value gives the state a concurrent
reader can observe between events.  The behaviour of one attempt of the
retry loop (one iteration of `while retries < max_retries`) is injected as
an `AttemptSpec`: the Chrome driver may fail to start (`setup_chrome_driver`
returns `None`, lines 299-302), each engine may raise or return per-page
link lists (lines 304-325; `get_search_results` catches its own exceptions
and returns `[]`, lines 282-284, so an engine failure is modelled as
occurring around the `working_engines` bookkeeping, before any page is
fetched), and `driver.quit()` (line 327) may raise, which the outer
`except` turns into one more retry (lines 342-346).  The handler itself
then calls `driver.quit()` again (line 346) with no protection: if that
second call raises, the exception is not caught by the same `try`, and
`process_dork` has no enclosing `try`, so it escapes `process_dork`
entirely — no boolean is returned and the terminal `error_dorks`
increment at line 350 is skipped; `run` observes it from
`future.result()` and only logs it (lines 433-436).  This escape path is
modelled explicitly (`cleanupRaises` / `AttemptExit.escaped` /
`DorkOutcome.exn`).  Failures of the runner's own bookkeeping I/O (log
writes, the results/errors file handles) are outside the model.
-/

namespace DorkParserV

/-- The shared statistics dictionary `self.stats` (`Kill.py` lines 32-40). -/
structure Stats where
  total_dorks : Nat
  checked_dorks : Nat
  urls_parsed : Nat
  error_dorks : Nat
  retry_dorks : Nat
  working_engines : List String
  start_time : Nat
deriving DecidableEq

/-- The initial statistics, as built by `__init__` (lines 32-40); the
`time.time()` timestamp is abstracted as a parameter. -/
def initStats (s : Nat) : Stats :=
  { total_dorks := 0, checked_dorks := 0, urls_parsed := 0, error_dorks := 0,
    retry_dorks := 0, working_engines := [], start_time := s }

/-- The statistics right after `run` stores `total_dorks = len(dorks)`
(line 404), before any worker starts. -/
def runInitStats (s n : Nat) : Stats :=
  { initStats s with total_dorks := n }

/-- Which entry of `self.stats` a single mutation touches. -/
inductive EventKind where
  | urls (n : Nat)
  | checked
  | error
  | engineAdd (engine : String)
  | engineRemove (engine : String)
deriving DecidableEq

/-- One atomic mutation of the shared `self.stats` dictionary, tagged with
whether the source performs it inside a `with self.lock` block:
`urls` is line 316 (locked), `checked` line 337 (locked), `error` line 350
(locked), `engineAdd` lines 308-309 (not locked), `engineRemove` lines
323-324 (not locked). -/
structure Event where
  kind : EventKind
  locked : Bool
deriving DecidableEq

/-- The event increments `checked_dorks` (a terminal success, line 337). -/
def Event.isChecked (ev : Event) : Bool :=
  match ev.kind with
  | .checked => true
  | _ => false

/-- The event increments `error_dorks` (a terminal failure, line 350). -/
def Event.isError (ev : Event) : Bool :=
  match ev.kind with
  | .error => true
  | _ => false

/-- The event records a terminal outcome for a dork (either counter). -/
def Event.isTerminal (ev : Event) : Bool :=
  ev.isChecked || ev.isError

/-- How much the event adds to `urls_parsed` (line 316). -/
def Event.urlsCount (ev : Event) : Nat :=
  match ev.kind with
  | .urls n => n
  | _ => 0

/-- The event mutates one of the integer counters of `self.stats`. -/
def Event.isCounterMut (ev : Event) : Bool :=
  match ev.kind with
  | .urls _ => true
  | .checked => true
  | .error => true
  | _ => false

/-- The event mutates the shared `working_engines` list. -/
def Event.isEngineMut (ev : Event) : Bool :=
  match ev.kind with
  | .engineAdd _ => true
  | .engineRemove _ => true
  | _ => false

/-- Effect of one mutation on the statistics: `+=` for the counters
(lines 316, 337, 350), guarded append (lines 308-309) and guarded remove
(lines 323-324) for `working_engines`. -/
def applyEvent (st : Stats) (ev : Event) : Stats :=
  match ev.kind with
  | .urls n => { st with urls_parsed := st.urls_parsed + n }
  | .checked => { st with checked_dorks := st.checked_dorks + 1 }
  | .error => { st with error_dorks := st.error_dorks + 1 }
  | .engineAdd e =>
      { st with working_engines :=
          if e ∈ st.working_engines then st.working_engines
          else st.working_engines ++ [e] }
  | .engineRemove e =>
      { st with working_engines := st.working_engines.erase e }

/-- State reached after a sequence of mutations. -/
def applyEvents (st : Stats) (tr : List Event) : Stats :=
  tr.foldl applyEvent st

theorem applyEvents_nil (st : Stats) : applyEvents st [] = st := rfl

theorem applyEvents_cons (st : Stats) (e : Event) (tr : List Event) :
    applyEvents st (e :: tr) = applyEvents (applyEvent st e) tr := rfl

theorem applyEvent_total (st : Stats) (ev : Event) :
    (applyEvent st ev).total_dorks = st.total_dorks := by
  obtain ⟨k, l⟩ := ev; cases k <;> rfl

theorem applyEvent_start (st : Stats) (ev : Event) :
    (applyEvent st ev).start_time = st.start_time := by
  obtain ⟨k, l⟩ := ev; cases k <;> rfl

theorem applyEvent_retry (st : Stats) (ev : Event) :
    (applyEvent st ev).retry_dorks = st.retry_dorks := by
  obtain ⟨k, l⟩ := ev; cases k <;> rfl

theorem applyEvent_checked (st : Stats) (ev : Event) :
    (applyEvent st ev).checked_dorks
      = st.checked_dorks + (if ev.isChecked then 1 else 0) := by
  obtain ⟨k, l⟩ := ev; cases k <;> simp [applyEvent, Event.isChecked]

theorem applyEvent_error (st : Stats) (ev : Event) :
    (applyEvent st ev).error_dorks
      = st.error_dorks + (if ev.isError then 1 else 0) := by
  obtain ⟨k, l⟩ := ev; cases k <;> simp [applyEvent, Event.isError]

theorem applyEvent_urls (st : Stats) (ev : Event) :
    (applyEvent st ev).urls_parsed = st.urls_parsed + ev.urlsCount := by
  obtain ⟨k, l⟩ := ev; cases k <;> simp [applyEvent, Event.urlsCount]

theorem applyEvents_total (tr : List Event) :
    ∀ st : Stats, (applyEvents st tr).total_dorks = st.total_dorks := by
  induction tr with
  | nil => intro st; rfl
  | cons e tr ih =>
      intro st
      rw [applyEvents_cons, ih, applyEvent_total]

theorem applyEvents_start (tr : List Event) :
    ∀ st : Stats, (applyEvents st tr).start_time = st.start_time := by
  induction tr with
  | nil => intro st; rfl
  | cons e tr ih =>
      intro st
      rw [applyEvents_cons, ih, applyEvent_start]

theorem applyEvents_retry (tr : List Event) :
    ∀ st : Stats, (applyEvents st tr).retry_dorks = st.retry_dorks := by
  induction tr with
  | nil => intro st; rfl
  | cons e tr ih =>
      intro st
      rw [applyEvents_cons, ih, applyEvent_retry]

theorem applyEvents_checked (tr : List Event) :
    ∀ st : Stats, (applyEvents st tr).checked_dorks
      = st.checked_dorks + tr.countP Event.isChecked := by
  induction tr with
  | nil => intro st; simp [applyEvents]
  | cons e tr ih =>
      intro st
      rw [applyEvents_cons, ih, applyEvent_checked, List.countP_cons]
      omega

theorem applyEvents_error (tr : List Event) :
    ∀ st : Stats, (applyEvents st tr).error_dorks
      = st.error_dorks + tr.countP Event.isError := by
  induction tr with
  | nil => intro st; simp [applyEvents]
  | cons e tr ih =>
      intro st
      rw [applyEvents_cons, ih, applyEvent_error, List.countP_cons]
      omega

theorem applyEvents_urls (tr : List Event) :
    ∀ st : Stats, (applyEvents st tr).urls_parsed
      = st.urls_parsed + (tr.map Event.urlsCount).sum := by
  induction tr with
  | nil => intro st; simp [applyEvents]
  | cons e tr ih =>
      intro st
      rw [applyEvents_cons, ih, applyEvent_urls]
      simp
      omega

theorem countP_terminal_split (tr : List Event) :
    tr.countP Event.isTerminal
      = tr.countP Event.isChecked + tr.countP Event.isError := by
  induction tr with
  | nil => rfl
  | cons e tr ih =>
      rw [List.countP_cons, List.countP_cons, List.countP_cons, ih]
      obtain ⟨k, l⟩ := e
      cases k <;>
        simp [Event.isTerminal, Event.isChecked, Event.isError] <;> omega

/-- The engine names, in the iteration order of `self.search_engines`
(lines 42-47, iterated at line 306). -/
def searchEngines : List String := ["google", "bing", "duckduckgo", "yahoo"]

/-- Environment-supplied behaviour of one iteration of the retry loop
(one executor attempt, lines 292-346): either `setup_chrome_driver`
returns `None` (lines 299-302), or the attempt runs with, per engine,
either an exception in the engine body (`none`) or the per-page link
lists that `get_search_results` returns (`some pls`, page `p` yielding
`pls[p]` or `[]` beyond the end), plus whether `driver.quit()` at line
327 raises (`quitRaises`) and — consulted only when it does, since that
is the one modelled way into the outer handler — whether the handler's
own cleanup `driver.quit()` at line 346 raises too (`cleanupRaises`),
in which case the exception escapes `process_dork`. -/
inductive AttemptSpec where
  | noDriver
  | run (eng : String → Option (List (List String)))
      (quitRaises : Bool) (cleanupRaises : Bool)

/-- Links fetched for pages `0 .. pages-1` (`for page in range(pages)`,
line 311) from an engine whose per-page results are `pls`. -/
def pageResults (pls : List (List String)) (pages : Nat) : List (List String) :=
  (List.range pages).map (fun p => pls.getD p [])

/-- Result of the engine loop: the links extended onto `all_links` and the
trace of shared-state mutations. -/
structure EngineOut where
  links : List String
  trace : List Event

/-- The engine loop (lines 304-325): for each engine in order, append it
to `working_engines` if absent (lines 308-309, not locked), then fetch
every page, extending `all_links` and adding each page's count to
`urls_parsed` under the lock (lines 311-316), and `break` after the first
engine that completes (line 319).  If the engine body raises, the handler
removes the engine from `working_engines` (lines 323-324, not locked) and
continues with the next engine; since `get_search_results` catches its own
exceptions (lines 282-284), such a failure happens before any page links
are recorded. -/
def engineLoop (eng : String → Option (List (List String))) (pages : Nat) :
    List String → EngineOut
  | [] => ⟨[], []⟩
  | e :: es =>
    match eng e with
    | some pls =>
        ⟨(pageResults pls pages).flatten,
         ⟨.engineAdd e, false⟩ ::
           (pageResults pls pages).map (fun l => ⟨.urls l.length, true⟩)⟩
    | none =>
        ⟨(engineLoop eng pages es).links,
         ⟨.engineAdd e, false⟩ :: ⟨.engineRemove e, false⟩ ::
           (engineLoop eng pages es).trace⟩

theorem engineLoop_cons_some (eng : String → Option (List (List String)))
    (pages : Nat) (e : String) (es : List String)
    (pls : List (List String)) (h : eng e = some pls) :
    engineLoop eng pages (e :: es)
      = ⟨(pageResults pls pages).flatten,
         ⟨.engineAdd e, false⟩ ::
           (pageResults pls pages).map (fun l => ⟨.urls l.length, true⟩)⟩ := by
  simp only [engineLoop, h]

theorem engineLoop_cons_none (eng : String → Option (List (List String)))
    (pages : Nat) (e : String) (es : List String) (h : eng e = none) :
    engineLoop eng pages (e :: es)
      = ⟨(engineLoop eng pages es).links,
         ⟨.engineAdd e, false⟩ :: ⟨.engineRemove e, false⟩ ::
           (engineLoop eng pages es).trace⟩ := by
  simp only [engineLoop, h]

/-- How one iteration of `while retries < max_retries` ended: `success` is
`return True` (line 338), `noDriver` is lines 300-302, `empty` is the
`else: retries += 1` at lines 339-340, `raised` is the outer handler
completing (lines 342-346), and `escaped` is the handler's cleanup
`driver.quit()` at line 346 raising, which aborts `process_dork`
altogether.  Exits `noDriver`, `empty` and `raised` increment `retries`
by one and continue the loop. -/
inductive AttemptExit where
  | success
  | noDriver
  | empty
  | raised
  | escaped
deriving DecidableEq

/-- Result of one iteration of the retry loop. -/
structure AttemptOut where
  allLinks : List String
  trace : List Event
  exit : AttemptExit

/-- One iteration of the retry loop (lines 292-346), acting on the
accumulated `all_links` (initialised once, before the loop, at line 289).
After the engine loop, `driver.quit()` runs (line 327) — if it raises, the
outer handler catches it before the `if all_links:` test and then runs
`driver.quit()` again at line 346: if that cleanup call raises as well,
the exception escapes the whole function (`escaped`); otherwise the
handler completes and the iteration just cost a retry (`raised`).  When
line 327 does not raise, a non-empty accumulated `all_links` is saved and
counted as a success (lines 329-338), and an empty one costs a retry
(lines 339-340). -/
def attemptStep (pages : Nat) (al : List String) : AttemptSpec → AttemptOut
  | .noDriver => ⟨al, [], .noDriver⟩
  | .run eng q c =>
      if q then
        if c then
          ⟨al ++ (engineLoop eng pages searchEngines).links,
           (engineLoop eng pages searchEngines).trace, .escaped⟩
        else
          ⟨al ++ (engineLoop eng pages searchEngines).links,
           (engineLoop eng pages searchEngines).trace, .raised⟩
      else if (al ++ (engineLoop eng pages searchEngines).links).isEmpty then
        ⟨al ++ (engineLoop eng pages searchEngines).links,
         (engineLoop eng pages searchEngines).trace, .empty⟩
      else
        ⟨al ++ (engineLoop eng pages searchEngines).links,
         (engineLoop eng pages searchEngines).trace ++ [⟨.checked, true⟩],
         .success⟩

/-- How `process_dork` terminates for one dork: `ok b` means it returned
the boolean `b`; `exn` means the handler's cleanup `driver.quit()` at line
346 raised and the exception escaped `process_dork` without any return
value or terminal counter update (it is then re-raised by
`future.result()` and caught and logged in `run`, lines 433-436). -/
inductive DorkOutcome where
  | ok (b : Bool)
  | exn
deriving DecidableEq

/-- Outcome of `process_dork` for one dork: how it terminated, the final
accumulated `all_links`, the trace of shared-state mutations, and how many
times the retry-loop body ran (executor invocations). -/
structure DorkResult where
  outcome : DorkOutcome
  allLinks : List String
  trace : List Event
  attempts : Nat
deriving DecidableEq

/-- The retry loop of `process_dork` over the remaining attempt budget
(lines 291-354): each `noDriver`/`empty`/`raised` iteration consumes one
entry of the budget (`retries += 1` on every such path); an `escaped`
iteration aborts the whole function with the escaping exception (no
further attempts, no terminal counter update); and when the budget is
exhausted the terminal failure is recorded under the lock
(`error_dorks += 1` and the errors-file write, lines 348-354). -/
def processLoop (pages : Nat) : List AttemptSpec → List String → DorkResult
  | [], al => ⟨.ok false, al, [⟨.error, true⟩], 0⟩
  | s :: rest, al =>
      if (attemptStep pages al s).exit = .success then
        ⟨.ok true, (attemptStep pages al s).allLinks,
         (attemptStep pages al s).trace, 1⟩
      else if (attemptStep pages al s).exit = .escaped then
        ⟨.exn, (attemptStep pages al s).allLinks,
         (attemptStep pages al s).trace, 1⟩
      else
        ⟨(processLoop pages rest (attemptStep pages al s).allLinks).outcome,
         (processLoop pages rest (attemptStep pages al s).allLinks).allLinks,
         (attemptStep pages al s).trace
           ++ (processLoop pages rest (attemptStep pages al s).allLinks).trace,
         (processLoop pages rest (attemptStep pages al s).allLinks).attempts + 1⟩

/-- `process_dork(dork, pages, max_retries)` (lines 286-354): starts with
`retries = 0` and empty `all_links` (lines 288-289) and runs the loop
while `retries < max_retries`; `specs i` is the environment's behaviour of
the attempt made when `retries = i`. -/
def process_dork (pages max_retries : Nat) (specs : Nat → AttemptSpec) : DorkResult :=
  processLoop pages ((List.range max_retries).map specs) []

theorem processLoop_nil (pages : Nat) (al : List String) :
    processLoop pages [] al = ⟨.ok false, al, [⟨.error, true⟩], 0⟩ := rfl

theorem processLoop_cons (pages : Nat) (s : AttemptSpec)
    (rest : List AttemptSpec) (al : List String) :
    processLoop pages (s :: rest) al =
      if (attemptStep pages al s).exit = .success then
        ⟨.ok true, (attemptStep pages al s).allLinks,
         (attemptStep pages al s).trace, 1⟩
      else if (attemptStep pages al s).exit = .escaped then
        ⟨.exn, (attemptStep pages al s).allLinks,
         (attemptStep pages al s).trace, 1⟩
      else
        ⟨(processLoop pages rest (attemptStep pages al s).allLinks).outcome,
         (processLoop pages rest (attemptStep pages al s).allLinks).allLinks,
         (attemptStep pages al s).trace
           ++ (processLoop pages rest (attemptStep pages al s).allLinks).trace,
         (processLoop pages rest (attemptStep pages al s).allLinks).attempts + 1⟩ := by
  simp only [processLoop]

theorem engineLoop_trace_shape (eng : String → Option (List (List String)))
    (pages : Nat) :
    ∀ (es : List String) (ev : Event), ev ∈ (engineLoop eng pages es).trace →
      ev.isChecked = false ∧ ev.isError = false ∧
      (ev.isCounterMut = true → ev.locked = true) ∧
      (ev.isEngineMut = true → ev.locked = false) := by
  intro es
  induction es with
  | nil => intro ev h; simp [engineLoop] at h
  | cons e es ih =>
      intro ev h
      cases hc : eng e with
      | some pls =>
          rw [engineLoop_cons_some eng pages e es pls hc] at h
          simp only [List.mem_cons, List.mem_map] at h
          rcases h with h | ⟨l, hl, h⟩ <;> subst h
          · exact ⟨rfl, rfl, fun hx => by simp [Event.isCounterMut] at hx,
              fun _ => rfl⟩
          · exact ⟨rfl, rfl, fun _ => rfl,
              fun hx => by simp [Event.isEngineMut] at hx⟩
      | none =>
          rw [engineLoop_cons_none eng pages e es hc] at h
          simp only [List.mem_cons] at h
          rcases h with h | h | h
          · subst h
            exact ⟨rfl, rfl, fun hx => by simp [Event.isCounterMut] at hx,
              fun _ => rfl⟩
          · subst h
            exact ⟨rfl, rfl, fun hx => by simp [Event.isCounterMut] at hx,
              fun _ => rfl⟩
          · exact ih ev h

theorem engineLoop_urls_sum (eng : String → Option (List (List String)))
    (pages : Nat) :
    ∀ es : List String,
      ((engineLoop eng pages es).trace.map Event.urlsCount).sum
        = (engineLoop eng pages es).links.length := by
  intro es
  induction es with
  | nil => rfl
  | cons e es ih =>
      cases hc : eng e with
      | some pls =>
          rw [engineLoop_cons_some eng pages e es pls hc]
          simp [Event.urlsCount, List.length_flatten, List.map_map,
            Function.comp]
          rfl
      | none =>
          rw [engineLoop_cons_none eng pages e es hc]
          simpa [Event.urlsCount] using ih

theorem engineLoop_terminal_zero (eng : String → Option (List (List String)))
    (pages : Nat) (es : List String) :
    (engineLoop eng pages es).trace.countP Event.isChecked = 0 ∧
    (engineLoop eng pages es).trace.countP Event.isError = 0 := by
  constructor <;>
    refine List.countP_eq_zero.mpr (fun ev h => ?_)
  · have := engineLoop_trace_shape eng pages es ev h
    simp [this.1]
  · have := engineLoop_trace_shape eng pages es ev h
    simp [this.2.1]

theorem attemptStep_allLinks (pages : Nat) (al : List String) (s : AttemptSpec) :
    ((attemptStep pages al s).trace.map Event.urlsCount).sum + al.length
      = (attemptStep pages al s).allLinks.length := by
  cases s with
  | noDriver => simp [attemptStep]
  | run eng q c =>
      have h := engineLoop_urls_sum eng pages searchEngines
      cases q with
      | true =>
          cases c with
          | true =>
              simp [attemptStep, h]
              omega
          | false =>
              simp [attemptStep, h]
              omega
      | false =>
          by_cases he : (al ++ (engineLoop eng pages searchEngines).links).isEmpty = true
          · simp [attemptStep, he, h]
            omega
          · simp [attemptStep, he, Event.urlsCount, h]
            omega

theorem attemptStep_terminals (pages : Nat) (al : List String) (s : AttemptSpec) :
    (attemptStep pages al s).trace.countP Event.isChecked
        = (if (attemptStep pages al s).exit = .success then 1 else 0) ∧
    (attemptStep pages al s).trace.countP Event.isError = 0 := by
  cases s with
  | noDriver => simp [attemptStep]
  | run eng q c =>
      have h := engineLoop_terminal_zero eng pages searchEngines
      cases q with
      | true =>
          cases c with
          | true => simp [attemptStep, h.1, h.2]
          | false => simp [attemptStep, h.1, h.2]
      | false =>
          by_cases he : (al ++ (engineLoop eng pages searchEngines).links).isEmpty = true
          · simp [attemptStep, he, h.1, h.2]
          · simp [attemptStep, he, List.countP_append, h.1, h.2,
              List.countP_cons, Event.isChecked, Event.isError]

theorem attemptStep_trace_cases (pages : Nat) (al : List String) (s : AttemptSpec) :
    (attemptStep pages al s).trace = [] ∨
    (∃ eng, (attemptStep pages al s).trace
        = (engineLoop eng pages searchEngines).trace) ∨
    (∃ eng, (attemptStep pages al s).trace
        = (engineLoop eng pages searchEngines).trace ++ [⟨.checked, true⟩]) := by
  cases s with
  | noDriver => exact Or.inl rfl
  | run eng q c =>
      cases q with
      | true =>
          cases c with
          | true => exact Or.inr (Or.inl ⟨eng, by simp [attemptStep]⟩)
          | false => exact Or.inr (Or.inl ⟨eng, by simp [attemptStep]⟩)
      | false =>
          by_cases he : (al ++ (engineLoop eng pages searchEngines).links).isEmpty = true
          · exact Or.inr (Or.inl ⟨eng, by simp [attemptStep, he]⟩)
          · exact Or.inr (Or.inr ⟨eng, by simp [attemptStep, he]⟩)

theorem attemptStep_locked (pages : Nat) (al : List String) (s : AttemptSpec) :
    ∀ ev ∈ (attemptStep pages al s).trace,
      (ev.isCounterMut = true → ev.locked = true) ∧
      (ev.isEngineMut = true → ev.locked = false) := by
  intro ev h
  rcases attemptStep_trace_cases pages al s with hc | ⟨eng, hc⟩ | ⟨eng, hc⟩
  · rw [hc] at h
    simp at h
  · rw [hc] at h
    have := engineLoop_trace_shape eng pages searchEngines ev h
    exact ⟨this.2.2.1, this.2.2.2⟩
  · rw [hc] at h
    rcases List.mem_append.mp h with h2 | h2
    · have := engineLoop_trace_shape eng pages searchEngines ev h2
      exact ⟨this.2.2.1, this.2.2.2⟩
    · have hev : ev = ⟨.checked, true⟩ := by simpa using h2
      subst hev
      exact ⟨fun _ => rfl, fun hx => by simp [Event.isEngineMut] at hx⟩

theorem processLoop_terminals (pages : Nat) :
    ∀ (L : List AttemptSpec) (al : List String),
      (processLoop pages L al).trace.countP Event.isChecked
          = (if (processLoop pages L al).outcome = DorkOutcome.ok true
             then 1 else 0) ∧
      (processLoop pages L al).trace.countP Event.isError
          = (if (processLoop pages L al).outcome = DorkOutcome.ok false
             then 1 else 0) := by
  intro L
  induction L with
  | nil =>
      intro al
      simp [processLoop_nil, List.countP_cons, Event.isChecked, Event.isError]
  | cons s rest ih =>
      intro al
      rw [processLoop_cons]
      by_cases hx : (attemptStep pages al s).exit = .success
      · rw [if_pos hx]
        have h := attemptStep_terminals pages al s
        rw [if_pos hx] at h
        simpa using h
      · rw [if_neg hx]
        have h := attemptStep_terminals pages al s
        rw [if_neg hx] at h
        by_cases hesc : (attemptStep pages al s).exit = .escaped
        · rw [if_pos hesc]
          simpa using h
        · rw [if_neg hesc]
          have ih2 := ih (attemptStep pages al s).allLinks
          simp only [List.countP_append]
          rw [h.1, h.2, ih2.1, ih2.2]
          simp

theorem processLoop_urls (pages : Nat) :
    ∀ (L : List AttemptSpec) (al : List String),
      ((processLoop pages L al).trace.map Event.urlsCount).sum + al.length
        = (processLoop pages L al).allLinks.length := by
  intro L
  induction L with
  | nil => intro al; simp [processLoop_nil, Event.urlsCount]
  | cons s rest ih =>
      intro al
      rw [processLoop_cons]
      by_cases hx : (attemptStep pages al s).exit = .success
      · rw [if_pos hx]
        exact attemptStep_allLinks pages al s
      · rw [if_neg hx]
        by_cases hesc : (attemptStep pages al s).exit = .escaped
        · rw [if_pos hesc]
          exact attemptStep_allLinks pages al s
        · rw [if_neg hesc]
          have h1 := attemptStep_allLinks pages al s
          have h2 := ih (attemptStep pages al s).allLinks
          simp only [List.map_append, List.sum_append]
          omega

theorem processLoop_locked (pages : Nat) :
    ∀ (L : List AttemptSpec) (al : List String) (ev : Event),
      ev ∈ (processLoop pages L al).trace →
        (ev.isCounterMut = true → ev.locked = true) ∧
        (ev.isEngineMut = true → ev.locked = false) := by
  intro L
  induction L with
  | nil =>
      intro al ev h
      simp [processLoop_nil] at h
      subst h
      exact ⟨fun _ => rfl, fun hx => by simp [Event.isEngineMut] at hx⟩
  | cons s rest ih =>
      intro al ev h
      rw [processLoop_cons] at h
      by_cases hx : (attemptStep pages al s).exit = .success
      · rw [if_pos hx] at h
        exact attemptStep_locked pages al s ev h
      · rw [if_neg hx] at h
        by_cases hesc : (attemptStep pages al s).exit = .escaped
        · rw [if_pos hesc] at h
          exact attemptStep_locked pages al s ev h
        · rw [if_neg hesc] at h
          replace h : ev ∈ (attemptStep pages al s).trace
              ++ (processLoop pages rest (attemptStep pages al s).allLinks).trace := h
          rcases List.mem_append.mp h with h | h
          · exact attemptStep_locked pages al s ev h
          · exact ih (attemptStep pages al s).allLinks ev h

theorem process_dork_terminal (pages max_retries : Nat) (specs : Nat → AttemptSpec) :
    (process_dork pages max_retries specs).trace.countP Event.isTerminal
      = (if (process_dork pages max_retries specs).outcome = DorkOutcome.exn
         then 0 else 1) := by
  rw [countP_terminal_split]
  have h := processLoop_terminals pages ((List.range max_retries).map specs) []
  rw [process_dork, h.1, h.2]
  cases hoc : (processLoop pages ((List.range max_retries).map specs) []).outcome with
  | ok b => cases b <;> simp
  | exn => simp

theorem process_dork_terminal_le (pages max_retries : Nat)
    (specs : Nat → AttemptSpec) :
    (process_dork pages max_retries specs).trace.countP Event.isTerminal ≤ 1 := by
  rw [process_dork_terminal]
  split <;> omega

theorem attemptStep_raised (pages : Nat) (al : List String)
    (eng : String → Option (List (List String))) :
    attemptStep pages al (.run eng true false)
      = ⟨al ++ (engineLoop eng pages searchEngines).links,
         (engineLoop eng pages searchEngines).trace, .raised⟩ := by
  simp [attemptStep]

theorem processLoop_raised (pages : Nat) :
    ∀ (gs : List (String → Option (List (List String)))) (al : List String),
      (processLoop pages (gs.map (fun g => AttemptSpec.run g true false)) al).outcome
          = DorkOutcome.ok false ∧
      (processLoop pages (gs.map (fun g => AttemptSpec.run g true false)) al).attempts
          = gs.length := by
  intro gs
  induction gs with
  | nil => intro al; simp [processLoop_nil]
  | cons g gs ih =>
      intro al
      rw [List.map_cons, processLoop_cons]
      have hx : ¬ (attemptStep pages al (.run g true false)).exit = .success := by
        rw [attemptStep_raised]
        intro hcon
        cases hcon
      have hesc : ¬ (attemptStep pages al (.run g true false)).exit = .escaped := by
        rw [attemptStep_raised]
        intro hcon
        cases hcon
      rw [if_neg hx, if_neg hesc]
      have ih2 := ih (attemptStep pages al (.run g true false)).allLinks
      simp [ih2.1, ih2.2]

/-- An executor attempt whose every engine either fails or completes with
empty page results: the attempt always yields an empty payload (and
raises nothing). -/
def emptySpec (f : String → Bool) : AttemptSpec :=
  .run (fun e => if f e then some [] else none) false false

theorem pageResults_flatten_nil (pages : Nat) :
    (pageResults ([] : List (List String)) pages).flatten = [] := by
  rw [List.flatten_eq_nil_iff]
  intro l hl
  simp [pageResults, List.getD] at hl
  exact hl.2

theorem engineLoop_empty_links (f : String → Bool) (pages : Nat) :
    ∀ es : List String,
      (engineLoop (fun e => if f e then some [] else none) pages es).links = [] := by
  intro es
  induction es with
  | nil => rfl
  | cons e es ih =>
      by_cases hf : f e = true
      · rw [engineLoop_cons_some _ pages e es [] (by simp [hf])]
        exact pageResults_flatten_nil pages
      · rw [engineLoop_cons_none _ pages e es (by simp [hf])]
        exact ih

theorem processLoop_empty_attempts (pages : Nat) :
    ∀ fs : List (String → Bool),
      (processLoop pages (fs.map emptySpec) []).outcome = DorkOutcome.ok false ∧
      (processLoop pages (fs.map emptySpec) []).attempts = fs.length := by
  intro fs
  induction fs with
  | nil => simp [processLoop_nil]
  | cons f fs ih =>
      rw [List.map_cons, processLoop_cons]
      have hstep : attemptStep pages [] (emptySpec f)
          = ⟨[], (engineLoop (fun e => if f e then some [] else none)
                    pages searchEngines).trace, .empty⟩ := by
        simp [attemptStep, emptySpec, engineLoop_empty_links f pages searchEngines]
      have hx : ¬ (attemptStep pages [] (emptySpec f)).exit = .success := by
        rw [hstep]
        intro hcon
        cases hcon
      have hesc : ¬ (attemptStep pages [] (emptySpec f)).exit = .escaped := by
        rw [hstep]
        intro hcon
        cases hcon
      rw [if_neg hx, if_neg hesc, hstep]
      simp [ih.1, ih.2]

/-- An attempt whose first engine yields one link `u1` and whose
`driver.quit()` at line 327 raises, so the attempt keeps its links but
ends in the outer `except` handler (whose cleanup quit succeeds). -/
def linkThenRaise : AttemptSpec :=
  .run (fun e => if e = "google" then some [["u1"]] else none) true false

/-- An attempt whose first engine yields one link `u` and which completes
normally. -/
def okAttempt : AttemptSpec := .run (fun _ => some [["u"]]) false false

/-- An attempt whose `driver.quit()` at line 327 raises and whose
handler-cleanup `driver.quit()` at line 346 raises again: the exception
escapes `process_dork`. -/
def escAttempt : AttemptSpec := .run (fun _ => some [["v"]]) true true

/-- Whether the attempt takes the escape path: `driver.quit()` raises at
line 327 and the handler's cleanup `driver.quit()` raises again at line
346. -/
def AttemptSpec.escapes : AttemptSpec → Bool
  | .run _ true true => true
  | _ => false

theorem attemptStep_no_escape (pages : Nat) (al : List String) (s : AttemptSpec)
    (h : s.escapes = false) :
    ¬ (attemptStep pages al s).exit = .escaped := by
  cases s with
  | noDriver =>
      intro hcon
      simp [attemptStep] at hcon
  | run eng q c =>
      cases q with
      | false =>
          intro hcon
          by_cases he : (al ++ (engineLoop eng pages searchEngines).links).isEmpty
            = true
          · simp [attemptStep, he] at hcon
          · simp [attemptStep, he] at hcon
      | true =>
          cases c with
          | false =>
              intro hcon
              simp [attemptStep] at hcon
          | true => simp [AttemptSpec.escapes] at h

theorem processLoop_no_escape (pages : Nat) :
    ∀ (L : List AttemptSpec) (al : List String),
      (∀ s ∈ L, s.escapes = false) →
      ∃ b : Bool, (processLoop pages L al).outcome = DorkOutcome.ok b := by
  intro L
  induction L with
  | nil => intro al h; exact ⟨false, rfl⟩
  | cons s rest ih =>
      intro al h
      rw [processLoop_cons]
      by_cases hx : (attemptStep pages al s).exit = .success
      · rw [if_pos hx]
        exact ⟨true, rfl⟩
      · rw [if_neg hx]
        have hesc : ¬ (attemptStep pages al s).exit = .escaped :=
          attemptStep_no_escape pages al s (h s (by simp))
        rw [if_neg hesc]
        obtain ⟨b, hb⟩ := ih (attemptStep pages al s).allLinks
          (fun t ht => h t (by simp [ht]))
        exact ⟨b, hb⟩

/-- An executor whose every engine raises on every attempt. -/
def failEngines : Nat → String → Option (List (List String)) := fun _ _ => none

/-- `run` submits each dork once to the pool (lines 425-429) and each
submission is one `process_dork` call; `specs d i` is the behaviour of
dork `d`'s attempt number `i`. -/
def runDorks (pages max_retries : Nat) (dorks : List String)
    (specs : String → Nat → AttemptSpec) : List DorkResult :=
  dorks.map (fun d => process_dork pages max_retries (specs d))

/-- C1, counterexample: with `max_retries = 3` and an executor that always
yields an empty payload, `process_dork` makes exactly 3 invocations, not
`maxRetries + 1 = 4` as the claim states (the loop is
`while retries < max_retries`, line 291, and every empty attempt runs
`retries += 1`). -/
theorem C1_retry_count_counterexample :
    (process_dork 1 3 (fun _ => emptySpec (fun _ => true))).outcome
        = DorkOutcome.ok false ∧
    (process_dork 1 3 (fun _ => emptySpec (fun _ => true))).attempts ≠ 3 + 1 := by
  decide

/-- C1 (amended): if every attempt yields an empty payload (each engine
either fails or returns no links), the outcome is `Failure`
(`process_dork` returns `False`), the executor is invoked exactly
`maxRetries` times — not `maxRetries + 1` — the succeeded counter
`checked_dorks` stays unchanged, and `error_dorks` is incremented exactly
once. -/
theorem C1_empty_payload_all_fail (pages max_retries : Nat)
    (fs : Nat → String → Bool) (st : Stats) :
    (process_dork pages max_retries (fun i => emptySpec (fs i))).outcome
        = DorkOutcome.ok false ∧
    (process_dork pages max_retries (fun i => emptySpec (fs i))).attempts
        = max_retries ∧
    (applyEvents st (process_dork pages max_retries
        (fun i => emptySpec (fs i))).trace).checked_dorks = st.checked_dorks ∧
    (applyEvents st (process_dork pages max_retries
        (fun i => emptySpec (fs i))).trace).error_dorks = st.error_dorks + 1 := by
  have hmap : (List.range max_retries).map (fun i => emptySpec (fs i))
      = ((List.range max_retries).map fs).map emptySpec := by
    rw [List.map_map]
    rfl
  have h := processLoop_empty_attempts pages ((List.range max_retries).map fs)
  have hterm := processLoop_terminals pages
    (((List.range max_retries).map fs).map emptySpec) []
  rw [process_dork, hmap]
  refine ⟨h.1, ?_, ?_, ?_⟩
  · rw [h.2]
    simp
  · rw [applyEvents_checked, hterm.1, h.1]
    simp
  · rw [applyEvents_error, hterm.2, h.1]
    simp

/-- C4, counterexample: a single attempt collects one link and then
`driver.quit()` raises, exhausting the retry budget (`max_retries = 1`):
the terminal outcome is `Failure`, yet `urls_parsed` was incremented (at
collection time, line 316) — contradicting the claim that attempts which
do not become the terminal outcome contribute nothing. -/
theorem C4_urls_counterexample :
    (process_dork 1 1 (fun _ => linkThenRaise)).outcome = DorkOutcome.ok false ∧
    (applyEvents (initStats 0)
        (process_dork 1 1 (fun _ => linkThenRaise)).trace).urls_parsed
      ≠ (initStats 0).urls_parsed := by
  decide

/-- C4 (amended): `urls_parsed` is incremented at collection time, once
per page within each attempt (line 316), not once per terminal outcome:
over a whole `process_dork` call it grows by exactly the length of the
accumulated `all_links` payload — counting links gathered by every
attempt, including attempts that ended in an exception and runs whose
terminal outcome is `Failure`. -/
theorem C4_urls_counted_at_collection (pages max_retries : Nat)
    (specs : Nat → AttemptSpec) (st : Stats) :
    (applyEvents st (process_dork pages max_retries specs).trace).urls_parsed
      = st.urls_parsed + (process_dork pages max_retries specs).allLinks.length := by
  rw [applyEvents_urls]
  have h := processLoop_urls pages ((List.range max_retries).map specs) []
  rw [process_dork]
  simp only [List.length_nil, Nat.add_zero] at h
  omega

/-- C5, counterexample: attempt 0 collects link `u1` but ends in the
outer `except` handler (`driver.quit()` raises); attempt 1 collects
nothing at all, yet `process_dork` returns `True` — because `all_links`
is initialised once before the loop (line 289) and the `if all_links:`
test (line 329) sees the earlier attempt's links.  This contradicts the
claim that a later attempt's success decision considers only what that
attempt itself produced. -/
theorem C5_fresh_attempt_counterexample :
    (process_dork 1 2 (fun i => if i = 0 then linkThenRaise
        else emptySpec (fun _ => true))).outcome = DorkOutcome.ok true ∧
    (process_dork 1 2 (fun i => if i = 0 then linkThenRaise
        else emptySpec (fun _ => true))).allLinks = ["u1"] ∧
    (process_dork 1 2 (fun i => if i = 0 then linkThenRaise
        else emptySpec (fun _ => true))).attempts = 2 := by
  decide

/-- C5 (amended): `all_links` accumulates across attempts; the success
test after an attempt checks the accumulated list, so whenever the links
carried into the next attempt are non-empty and that attempt completes
without raising, the task succeeds on that attempt — regardless of what
the attempt itself produced. -/
theorem C5_links_accumulate (pages : Nat)
    (eng : String → Option (List (List String))) (c : Bool)
    (rest : List AttemptSpec) (l : String) (ls : List String) :
    (processLoop pages (AttemptSpec.run eng false c :: rest) (l :: ls)).outcome
        = DorkOutcome.ok true ∧
    (processLoop pages (AttemptSpec.run eng false c :: rest) (l :: ls)).attempts
        = 1 := by
  have hx : (attemptStep pages (l :: ls) (.run eng false c)).exit = .success := by
    simp [attemptStep]
  rw [processLoop_cons, if_pos hx]
  exact ⟨rfl, rfl⟩

/-- C6, counterexample: an attempt raises at `driver.quit()` (line 327)
and the handler's cleanup `driver.quit()` (line 346) raises again: the
exception escapes `process_dork` — no boolean is returned and the task
records neither terminal outcome (`checked_dorks` and `error_dorks` both
stay 0) — contradicting the claim that every error raised by an executor
attempt is contained inside the retry loop and surfaces only as the
task's Failure outcome. -/
theorem C6_escape_counterexample :
    (process_dork 1 1 (fun _ => escAttempt)).outcome = DorkOutcome.exn ∧
    (applyEvents (initStats 0)
        (process_dork 1 1 (fun _ => escAttempt)).trace).checked_dorks = 0 ∧
    (applyEvents (initStats 0)
        (process_dork 1 1 (fun _ => escAttempt)).trace).error_dorks = 0 := by
  decide

/-- C6 (amended): errors raised by executor attempts are contained inside
the task's retry loop and surface as the task's Failure outcome, except
on the escape path — when the handler's cleanup `driver.quit()` at line
346 raises, the exception leaves `process_dork` without a boolean return
(`run` then logs it from `future.result()`, lines 433-436).  Formally:
whenever no attempt takes the escape path, `process_dork` returns a
boolean; and when every attempt raises at line 327 with a successful
cleanup, it returns `False` after exactly the retry budget, leaving
`checked_dorks` untouched and incrementing `error_dorks` exactly once. -/
theorem C6_attempt_errors_contained (pages max_retries : Nat)
    (specs : Nat → AttemptSpec)
    (engs : Nat → String → Option (List (List String))) (st : Stats)
    (h : ∀ i, i < max_retries → (specs i).escapes = false) :
    (∃ b : Bool, (process_dork pages max_retries specs).outcome
        = DorkOutcome.ok b) ∧
    (process_dork pages max_retries
        (fun i => .run (engs i) true false)).outcome = DorkOutcome.ok false ∧
    (process_dork pages max_retries
        (fun i => .run (engs i) true false)).attempts = max_retries ∧
    (applyEvents st (process_dork pages max_retries
        (fun i => .run (engs i) true false)).trace).checked_dorks
      = st.checked_dorks ∧
    (applyEvents st (process_dork pages max_retries
        (fun i => .run (engs i) true false)).trace).error_dorks
      = st.error_dorks + 1 := by
  constructor
  · rw [process_dork]
    refine processLoop_no_escape pages _ [] ?_
    intro s hs
    obtain ⟨i, hi, rfl⟩ := List.mem_map.mp hs
    exact h i (List.mem_range.mp hi)
  · have hmap : (List.range max_retries).map
          (fun i => AttemptSpec.run (engs i) true false)
        = ((List.range max_retries).map engs).map
            (fun g => AttemptSpec.run g true false) := by
      rw [List.map_map]
      rfl
    have h2 := processLoop_raised pages ((List.range max_retries).map engs)
    have hterm := processLoop_terminals pages
      (((List.range max_retries).map engs).map
        (fun g => AttemptSpec.run g true false)) []
    rw [process_dork, hmap]
    refine ⟨(h2 []).1, ?_, ?_, ?_⟩
    · rw [(h2 []).2]
      simp
    · rw [applyEvents_checked, hterm.1, (h2 []).1]
      simp
    · rw [applyEvents_error, hterm.2, (h2 []).1]
      simp

/-- Witness for C6 at a concrete non-escaping executor (`okAttempt`) and
the all-raising executor whose engines all fail. -/
theorem C6_attempt_errors_contained_witness :
    (∀ i, i < 2 → okAttempt.escapes = false) ∧
    ((∃ b : Bool, (process_dork 1 2 (fun _ => okAttempt)).outcome
        = DorkOutcome.ok b) ∧
     (process_dork 1 2
        (fun i => .run (failEngines i) true false)).outcome
        = DorkOutcome.ok false ∧
     (process_dork 1 2
        (fun i => .run (failEngines i) true false)).attempts = 2 ∧
     (applyEvents (initStats 0) (process_dork 1 2
        (fun i => .run (failEngines i) true false)).trace).checked_dorks
       = (initStats 0).checked_dorks ∧
     (applyEvents (initStats 0) (process_dork 1 2
        (fun i => .run (failEngines i) true false)).trace).error_dorks
       = (initStats 0).error_dorks + 1) :=
  ⟨fun _ _ => rfl,
   C6_attempt_errors_contained 1 2 (fun _ => okAttempt) failEngines
     (initStats 0) (fun _ _ => rfl)⟩

/-- C7, counterexample: a dork whose only attempt takes the escape path
(the handler's cleanup `driver.quit()` at line 346 raising) records zero
terminal counter updates — its `process_dork` call never reaches either
`checked_dorks += 1` or `error_dorks += 1` — contradicting the claim that
each submitted dork records exactly one of the two terminal outcomes
exactly once. -/
theorem C7_zero_terminal_counterexample :
    (process_dork 1 2 (fun _ => escAttempt)).trace.countP Event.isTerminal
        = 0 ∧
    (process_dork 1 2 (fun _ => escAttempt)).outcome = DorkOutcome.exn := by
  decide

/-- C7 (amended): the result list of a run has exactly one entry per
submitted dork, and each dork's single `process_dork` call records
exactly one terminal counter update (`checked_dorks` or `error_dorks`)
when it returns a boolean, and zero when the handler-cleanup
`driver.quit()` at line 346 raises and the exception escapes
`process_dork` (in which case `run` only logs it, lines 433-436). -/
theorem C7_outcomes_per_task (pages max_retries : Nat) (dorks : List String)
    (specs : String → Nat → AttemptSpec) :
    (runDorks pages max_retries dorks specs).length = dorks.length ∧
    ∀ d : String,
      (process_dork pages max_retries (specs d)).trace.countP Event.isTerminal
        = (if (process_dork pages max_retries (specs d)).outcome
             = DorkOutcome.exn then 0 else 1) := by
  constructor
  · simp [runDorks]
  · intro d
    exact process_dork_terminal pages max_retries (specs d)

/-- C9, counterexample: the trace of a successful `process_dork` run
contains a mutation performed outside the lock — the `working_engines`
append at lines 308-309 — so it is false that every mutation of the
shared stats state is guarded by `self.lock`. -/
theorem C9_lock_counterexample :
    (process_dork 1 1 (fun _ => okAttempt)).trace.all
      (fun ev => ev.locked) = false := by
  decide

/-- C9 (amended): every counter mutation (`urls_parsed`, `checked_dorks`,
`error_dorks`) is performed inside a `with self.lock` block, but the
mutations of the `working_engines` list (lines 308-309 and 323-324) are
performed without the lock. -/
theorem C9_lock_discipline (pages max_retries : Nat) (specs : Nat → AttemptSpec) :
    (process_dork pages max_retries specs).trace.all
      (fun ev => ((!ev.isCounterMut) || ev.locked)
        && ((!ev.isEngineMut) || (!ev.locked))) = true := by
  rw [List.all_eq_true]
  intro ev hev
  have h := processLoop_locked pages ((List.range max_retries).map specs) [] ev hev
  simp only [Bool.and_eq_true, Bool.or_eq_true, Bool.not_eq_true']
  constructor
  · by_cases hcm : ev.isCounterMut = true
    · exact Or.inr (h.1 hcm)
    · exact Or.inl (by simpa using hcm)
  · by_cases hem : ev.isEngineMut = true
    · exact Or.inr (by simpa using h.2 hem)
    · exact Or.inl (by simpa using hem)

/-- The value printed as `Retry Dorks` by `display_stats` (line 377). -/
def retryDorksLine (st : Stats) : Nat := st.retry_dorks

/-- C10: `process_dork` never changes `total_dorks`, `start_time` or
`retry_dorks` — no event of its trace touches them — and `retry_dorks` is
never incremented anywhere in the program: starting from the statistics
`run` hands to the workers, after any sequence of mutations the program
performs, the displayed `Retry Dorks` line is `0`. -/
theorem C10_frame (pages max_retries : Nat) (specs : Nat → AttemptSpec)
    (st : Stats) (s n : Nat) (p : List Event) :
    (applyEvents st (process_dork pages max_retries specs).trace).total_dorks
        = st.total_dorks ∧
    (applyEvents st (process_dork pages max_retries specs).trace).start_time
        = st.start_time ∧
    (applyEvents st (process_dork pages max_retries specs).trace).retry_dorks
        = st.retry_dorks ∧
    retryDorksLine (applyEvents (runInitStats s n) p) = 0 := by
  refine ⟨applyEvents_total _ st, applyEvents_start _ st,
    applyEvents_retry _ st, ?_⟩
  rw [retryDorksLine, applyEvents_retry]
  rfl

/-- `Interleaves ts m`: the global mutation sequence `m` is an
interleaving of the per-worker traces `ts` — at each step the scheduler
lets one worker perform its next atomic mutation.  Every state the
reporting loop can read is `applyEvents` of a prefix of such an `m`. -/
inductive Interleaves : List (List Event) → List Event → Prop where
  | nil {ts : List (List Event)} (h : ∀ t ∈ ts, t = []) : Interleaves ts []
  | pick {ts : List (List Event)} {m : List Event} {e : Event}
      (i : Nat) (t : List Event)
      (hget : ts.getD i [] = e :: t) (hlt : i < ts.length)
      (htail : Interleaves (ts.set i t) m) :
      Interleaves ts (e :: m)

theorem sum_map_set (f : List Event → Nat) :
    ∀ (L : List (List Event)) (i : Nat) (x a : List Event),
      L.getD i [] = a → i < L.length →
      ((L.set i x).map f).sum + f a = (L.map f).sum + f x := by
  intro L
  induction L with
  | nil => intro i x a hget hlt; simp at hlt
  | cons b L ih =>
      intro i x a hget hlt
      cases i with
      | zero =>
          simp [List.getD] at hget
          subst hget
          simp only [List.set_cons_zero, List.map_cons, List.sum_cons]
          omega
      | succ n =>
          have hn : n < L.length := by simpa using hlt
          have hget2 : L.getD n [] = a := by simpa [List.getD] using hget
          have := ih n x a hget2 hn
          simp only [List.set_cons_succ, List.map_cons, List.sum_cons]
          omega

theorem Interleaves.countP_eq (P : Event → Bool) :
    ∀ {ts : List (List Event)} {m : List Event}, Interleaves ts m →
      m.countP P = (ts.map (fun t => t.countP P)).sum := by
  intro ts m h
  induction h with
  | nil hts =>
      simp only [List.countP_nil]
      symm
      refine List.sum_eq_zero (fun x hx => ?_)
      obtain ⟨t, ht, rfl⟩ := List.mem_map.mp hx
      rw [hts t ht, List.countP_nil]
  | pick i t hget hlt htail ih =>
      rw [List.countP_cons, ih]
      have hs := sum_map_set (fun t2 => t2.countP P) _ i t _ hget hlt
      simp only [] at hs
      rw [List.countP_cons] at hs
      omega

/-- The per-dork mutation traces of one run: one worker trace per
submitted dork. -/
def dorkTraces (pages max_retries : Nat) (dorks : List String)
    (specs : String → Nat → AttemptSpec) : List (List Event) :=
  dorks.map (fun d => (process_dork pages max_retries (specs d)).trace)

theorem dorkTraces_terminal_sum_le (pages max_retries : Nat)
    (specs : String → Nat → AttemptSpec) :
    ∀ dorks : List String,
      ((dorkTraces pages max_retries dorks specs).map
        (fun t => t.countP Event.isTerminal)).sum ≤ dorks.length := by
  intro dorks
  induction dorks with
  | nil => simp [dorkTraces]
  | cons d ds ih =>
      simp only [dorkTraces, List.map_cons, List.sum_cons, List.length_cons] at ih ⊢
      have h1 := process_dork_terminal_le pages max_retries (specs d)
      omega

/-- C2: at every point the reporting loop can observe — after any prefix
`p` of any interleaving of the workers' mutation traces, starting from the
statistics `run` hands to the workers — the number of terminally processed
dorks in that prefix equals `checked_dorks + error_dorks`, and
`checked_dorks + error_dorks ≤ total_dorks`. -/
theorem C2_snapshot_invariant (pages max_retries s : Nat)
    (dorks : List String) (specs : String → Nat → AttemptSpec)
    (p r : List Event)
    (hm : Interleaves (dorkTraces pages max_retries dorks specs) (p ++ r)) :
    (applyEvents (runInitStats s dorks.length) p).checked_dorks
        + (applyEvents (runInitStats s dorks.length) p).error_dorks
      = p.countP Event.isTerminal ∧
    (applyEvents (runInitStats s dorks.length) p).checked_dorks
        + (applyEvents (runInitStats s dorks.length) p).error_dorks
      ≤ (applyEvents (runInitStats s dorks.length) p).total_dorks := by
  have hchk := applyEvents_checked p (runInitStats s dorks.length)
  have herr := applyEvents_error p (runInitStats s dorks.length)
  have htot := applyEvents_total p (runInitStats s dorks.length)
  have h0 : (runInitStats s dorks.length).checked_dorks = 0 := rfl
  have h1 : (runInitStats s dorks.length).error_dorks = 0 := rfl
  have h2 : (runInitStats s dorks.length).total_dorks = dorks.length := rfl
  have hsplit := countP_terminal_split p
  have hsum := Interleaves.countP_eq Event.isTerminal hm
  have htr := dorkTraces_terminal_sum_le pages max_retries specs dorks
  have happ : (p ++ r).countP Event.isTerminal
      = p.countP Event.isTerminal + r.countP Event.isTerminal := by
    rw [List.countP_append]
  omega

theorem interleaves_single (t : List Event) : Interleaves [t] t := by
  induction t with
  | nil => exact Interleaves.nil (by simp)
  | cons e t ih => exact Interleaves.pick 0 t rfl (by simp) ih

/-- The mutation trace of one successful single-attempt dork: the
(unlocked) `working_engines` append, one page of links, and the terminal
success counter. -/
def okTrace : List Event :=
  [⟨.engineAdd "google", false⟩, ⟨.urls 1, true⟩, ⟨.checked, true⟩]

/-- Witness for C2: a one-dork run whose single worker trace is observed
in full. -/
theorem C2_snapshot_invariant_witness :
    (applyEvents (runInitStats 0 1) okTrace).checked_dorks
        + (applyEvents (runInitStats 0 1) okTrace).error_dorks
      = okTrace.countP Event.isTerminal ∧
    (applyEvents (runInitStats 0 1) okTrace).checked_dorks
        + (applyEvents (runInitStats 0 1) okTrace).error_dorks
      ≤ (applyEvents (runInitStats 0 1) okTrace).total_dorks := by
  have he : dorkTraces 1 1 ["a"] (fun _ _ => okAttempt) = [okTrace] := by
    decide
  have hm : Interleaves (dorkTraces 1 1 ["a"] (fun _ _ => okAttempt))
      (okTrace ++ []) := by
    rw [he, List.append_nil]
    exact interleaves_single okTrace
  exact C2_snapshot_invariant 1 1 0 ["a"] (fun _ _ => okAttempt) okTrace [] hm

/-- The estimated-time computation of `display_stats` (lines 359-367):
`avg_time_per_dork = elapsed / checked_dorks`,
`remaining_dorks = total_dorks - checked_dorks` and
`estimated_time = remaining_dorks * avg_time_per_dork` when
`checked_dorks > 0`; otherwise the `Calculating...` placeholder, modelled
as `none`.  Arithmetic is over `ℚ` (the source uses floats); the final
`str(timedelta(seconds=int(...)))` rendering is not modelled. -/
def estimated_time (elapsed : ℚ) (st : Stats) : Option ℚ :=
  if st.checked_dorks > 0 then
    some (((st.total_dorks : ℚ) - (st.checked_dorks : ℚ))
      * (elapsed / (st.checked_dorks : ℚ)))
  else none

/-- Modelled from the spec (§4.2), for comparison with the code's
`estimated_time`: `(elapsed / completed) * (total - completed)` when
`completed > 0`, else unknown, with `completed = succeeded + failed`
(`checked_dorks + error_dorks`). -/
def specEstimatedRemaining (elapsed : ℚ) (st : Stats) : Option ℚ :=
  if (st.checked_dorks : ℚ) + (st.error_dorks : ℚ) > 0 then
    some ((elapsed / ((st.checked_dorks : ℚ) + (st.error_dorks : ℚ)))
      * ((st.total_dorks : ℚ)
          - ((st.checked_dorks : ℚ) + (st.error_dorks : ℚ))))
  else none

/-- C3, counterexample: with `total = 4`, `checked = 1`, `error = 1`,
`elapsed = 10` the code shows `(4-1)*(10/1) = 30` while the claim's
formula gives `(10/2)*(4-2) = 10`; and with `checked = 0`, `error = 2`
the code shows the placeholder although `completed = 2 > 0`. -/
theorem C3_estimate_counterexample :
    estimated_time 10 ⟨4, 1, 0, 1, 0, [], 0⟩
        ≠ specEstimatedRemaining 10 ⟨4, 1, 0, 1, 0, [], 0⟩ ∧
    estimated_time 10 ⟨4, 0, 0, 2, 0, [], 0⟩ = none ∧
    specEstimatedRemaining 10 ⟨4, 0, 0, 2, 0, [], 0⟩ ≠ none := by
  refine ⟨?_, ?_, ?_⟩
  · simp only [estimated_time, specEstimatedRemaining]
    norm_num
  · simp [estimated_time]
  · norm_num [specEstimatedRemaining]
    exact fun hcon => Option.noConfusion hcon

/-- Modelled from the amended claim: the reporter's estimate is
`(elapsed / succeeded) * (total - succeeded)` whenever the succeeded
count (`checked_dorks`) is positive, and the placeholder otherwise —
failed dorks play no part in the estimator. -/
def succEstimatedRemaining (elapsed : ℚ) (st : Stats) : Option ℚ :=
  if st.checked_dorks > 0 then
    some ((elapsed / (st.checked_dorks : ℚ))
      * ((st.total_dorks : ℚ) - (st.checked_dorks : ℚ)))
  else none

/-- C3 (amended): whenever `checked_dorks > 0` the displayed estimate
equals `(elapsed / checked_dorks) * (total_dorks - checked_dorks)` — the
extrapolation uses only the succeeded count, not
`completed = succeeded + failed` — and when `checked_dorks = 0` the
placeholder is shown even if failures have completed. -/
theorem C3_estimate_formula (elapsed : ℚ) (st : Stats) :
    estimated_time elapsed st = succEstimatedRemaining elapsed st := by
  rw [estimated_time, succEstimatedRemaining]
  by_cases h : st.checked_dorks > 0
  · rw [if_pos h, if_pos h, mul_comm]
  · rw [if_neg h, if_neg h]

/-- Observable side effects of `run` after the search configuration is
read, in program order (lines 414-436): the previous output files are
removed (lines 414-417), the reporter thread is started (lines 420-421),
and then the worker pool is created — `ThreadPoolExecutor` (standard
library, documented behaviour) raises `ValueError` at construction when
`max_workers <= 0`, modelled as `poolError`; otherwise each dork is
submitted once (lines 425-429). -/
inductive RunAction where
  | clearFiles
  | startReporter
  | poolError
  | attempt (dork : Nat)
deriving DecidableEq

/-- The ordered action sequence of `run` from line 414 on, given the
user-entered thread count. -/
def runActions (threads : Int) (dorks : List String) : List RunAction :=
  RunAction.clearFiles :: RunAction.startReporter ::
    (if threads < 1 then [RunAction.poolError]
     else (List.range dorks.length).map RunAction.attempt)

/-- C8, counterexample: with `threads = 0` the output files are removed
and the reporter thread is started before the invalid worker count is
rejected (the error only arises in the pool constructor), contradicting
the claim that no side effect precedes the rejection. -/
theorem C8_fail_fast_counterexample :
    runActions 0 ["a"] = [RunAction.clearFiles, RunAction.startReporter,
      RunAction.poolError] ∧
    RunAction.clearFiles ∈ (runActions 0 ["a"]).takeWhile
      (fun a => decide (a ≠ RunAction.poolError)) := by
  decide

/-- C8 (amended): with `workerCount < 1` the run raises when the worker
pool is constructed — so no task attempt is ever made — but only after
the output files have been removed and the reporter thread started. -/
theorem C8_invalid_worker_count (threads : Int) (dorks : List String)
    (h : threads < 1) :
    runActions threads dorks = [RunAction.clearFiles,
      RunAction.startReporter, RunAction.poolError] := by
  rw [runActions, if_pos h]

/-- Witness for C8 at `threads = 0`. -/
theorem C8_invalid_worker_count_witness :
    (0 : Int) < 1 ∧ runActions 0 [] = [RunAction.clearFiles,
      RunAction.startReporter, RunAction.poolError] :=
  ⟨by decide, C8_invalid_worker_count 0 [] (by decide)⟩

end DorkParserV
